import Mathlib

/-
  Verification of the gh-iterator repository (github.com/jcchavezs/gh-iterator).

  Shallow embedding of the core pipeline:
  - data model (Repository, SearchOptions, Options, Result),
  - the predicate chain (SearchOptions.MakeFilterIn),
  - the page decoder (processRepoPages over an abstract JSON decoder),
  - the producer counting loop (producerState),
  - the per-repository processing routine and the worker loop
    (processRepository, runQueue, runForRepos, runForOrganization),
  - the working-copy cache manager (cloneRepositoryOrGetFromCache) with a
    faithful model of the Go time layout strings it uses (goFormat),
  - the exec environment-overlay builder (WithEnv).

  External effects (the gh listing call, git commands, the JSON decoder and
  the user processor callback) are passed in as explicit pure oracles; the
  embedding threads their outcomes through the same control flow as the Go
  source.  Machine ints are modelled as Int (sizes, pages) or Nat (counters);
  fallible code returns Option/Except or an explicit error component.
-/

namespace GhIterator

/-- Repository record, decoded from one listing page.
    Source: iterator.go (src/unnamed/part_012, second variant, lines 390-400). -/
structure Repository where
  Name : String
  URL : String
  SSHURL : String
  DefaultBranchName : String
  Archived : Bool
  Language : String
  Visibility : String
  Fork : Bool
  Size : Int
deriving Repr, DecidableEq

/-- Visibility filter enum. Source: options.go (src/unnamed/part_000, lines 5-12). -/
inductive Visibility where
  | VisibilityNone
  | VisibilityPublic
  | VisibilityPrivate
  | VisibilityInternal
deriving Repr, DecidableEq

/-- Visibility.String() from the source (src/unnamed/part_000, lines 14-25). -/
def visibilityString : Visibility → String
  | .VisibilityPublic => "public"
  | .VisibilityPrivate => "private"
  | .VisibilityInternal => "internal"
  | .VisibilityNone => ""

/-- Archive condition enum. Source: src/unnamed/part_000, lines 27-33. -/
inductive ArchiveCondition where
  | IncludeArchived
  | OnlyArchived
  | OmitArchived
deriving Repr, DecidableEq

/-- Source (fork) condition enum. Source: src/unnamed/part_000, lines 35-41. -/
inductive Source where
  | AllSources
  | OnlyForks
  | OnlyNonForks
deriving Repr, DecidableEq

/-- Size condition enum. Source: src/unnamed/part_000, lines 43-49. -/
inductive SizeCondition where
  | All
  | NotEmpty
  | OnlyEmpty
deriving Repr, DecidableEq

/-- Page sentinel: fetching all pages. Source: src/unnamed/part_000, line 53
    (const AllPages Page = -1; the Page type is an int). -/
def AllPages : Int := -1

/-- SearchOptions. Source: src/unnamed/part_000, lines 59-78.  The Cache
    field is a time.Duration (integer nanoseconds).  Zero values are the Go
    zero values of each field. -/
structure SearchOptions where
  Language : String := ""
  ArchiveCondition : ArchiveCondition := .IncludeArchived
  Visibility : Visibility := .VisibilityNone
  Source : Source := .AllSources
  PerPage : Int := 0
  Page : Int := 0
  SizeCondition : SizeCondition := .All
  FilterIn : Option (Repository → Bool) := none
  Cache : Int := 0

/-- defaultPerPage / maxPerPage. Source: src/unnamed/part_000, lines 80-83. -/
def defaultPerPage : Int := 100

def maxPerPage : Int := 1000

/-- Per-run Options. Source: src/unnamed/part_012, second variant, lines
    428-446.  ContextEnricher only wraps the context handed to the processor
    and is not observable in this embedding, so it is omitted. -/
structure Options where
  UseHTTPS : Bool := false
  CloneCacheKey : Option (Repository → String) := none
  CloningSubset : List String := []
  NumberOfWorkers : Int := 0
  Debug : Bool := false

/-- SearchOptions.MakeFilterIn.  Translated from src/unnamed/part_000 lines
    85-144: an ordered list of checks is assembled (custom FilterIn first,
    then language, archive condition, fork condition, visibility, size
    condition; a disabled dimension appends nothing), and the returned
    predicate walks that list, returning false at the first failing check. -/
def SearchOptions.MakeFilterIn (so : SearchOptions) : Repository → Bool :=
  let filters : List (Repository → Bool) :=
    (match so.FilterIn with
      | some f => [f]
      | none => [])
    ++ (if so.Language ≠ "" then
          ([fun r => r.Language == so.Language] : List (Repository → Bool))
        else [])
    ++ (match so.ArchiveCondition with
        | .OnlyArchived => [fun r => r.Archived]
        | .OmitArchived => [fun r => !r.Archived]
        | .IncludeArchived => [])
    ++ (match so.Source with
        | .OnlyForks => [fun r => r.Fork]
        | .OnlyNonForks => [fun r => !r.Fork]
        | .AllSources => [])
    ++ (if so.Visibility ≠ .VisibilityNone then
          ([fun r => r.Visibility == visibilityString so.Visibility] : List (Repository → Bool))
        else [])
    ++ (match so.SizeCondition with
        | .NotEmpty => [fun r => decide (0 < r.Size)]
        | .OnlyEmpty => [fun r => r.Size == 0]
        | .All => [])
  fun r => filters.all (fun filter => filter r)

/-- Claim C8: MakeFilterIn returns the short-circuit logical AND of exactly
    the checks enabled by the options, in the order custom predicate,
    language, archive condition, fork condition, visibility, size condition;
    a disabled dimension contributes no check (vacuously true), so with no
    options enabled the predicate accepts every repository.  Constructing
    and applying the predicate is pure (it is a Lean function of the options
    alone), hence applying it twice to the same repository yields the same
    boolean. -/
theorem c8_makeFilterIn_is_ordered_and_of_enabled_checks :
    ∀ (so : SearchOptions) (r : Repository),
      so.MakeFilterIn r =
        ((match so.FilterIn with
           | some f => f r
           | none => true)
         && (if so.Language = "" then true else r.Language == so.Language)
         && (match so.ArchiveCondition with
             | .IncludeArchived => true
             | .OnlyArchived => r.Archived
             | .OmitArchived => !r.Archived)
         && (match so.Source with
             | .AllSources => true
             | .OnlyForks => r.Fork
             | .OnlyNonForks => !r.Fork)
         && (if so.Visibility = .VisibilityNone then true
             else r.Visibility == visibilityString so.Visibility)
         && (match so.SizeCondition with
             | .All => true
             | .NotEmpty => decide (0 < r.Size)
             | .OnlyEmpty => r.Size == 0))
        ∧ SearchOptions.MakeFilterIn {} r = true := by
  intro so r
  constructor
  · cases hF : so.FilterIn <;>
      cases hA : so.ArchiveCondition <;>
        cases hS : so.Source <;>
          cases hZ : so.SizeCondition <;>
            by_cases hL : so.Language = "" <;>
              by_cases hV : so.Visibility = .VisibilityNone <;>
                simp [SearchOptions.MakeFilterIn, hF, hA, hS, hZ, hL, hV,
                  List.all_append, Bool.and_assoc]
  · simp [SearchOptions.MakeFilterIn]

/-! ## Page decoder (processRepoPages) -/

/-- Close one scanned line, whose characters are accumulated in reverse:
    bufio.ScanLines' dropCR removes a single trailing carriage return. -/
def finishLine (acc : List Char) : String :=
  match acc with
  | '\r' :: acc₁ => String.mk acc₁.reverse
  | _ => String.mk acc.reverse

/-- bufio.MaxScanTokenSize = 64 * 1024.  The scanner's internal buffer is
    capped at this size (the growth loop in bufio.Scanner.Scan doubles the
    buffer up to maxTokenSize and reports ErrTooLong when the buffer is full
    at that cap), so a token needing at least this many buffered bytes
    before it can be emitted fails the scan.  A line of byte length L with a
    following newline is emitted once its newline is buffered (L + 1 bytes);
    a final line is emitted once EOF is observed, which requires its L bytes
    to fit strictly below the cap first — in both cases the scan fails
    exactly when L is at least 65536. -/
def maxScanTokenSize : Nat := 65536

/-- How the scanner's token stream ends: normal end of input, or
    bufio.ErrTooLong at the first line of maxScanTokenSize or more bytes
    (which yields no token for that line and stops the scan). -/
inductive ScanTail where
  | eof
  | tooLong
deriving Repr, DecidableEq

/-- The tokens bufio.Scanner.Scan produces with ScanLines over the whole
    input, and how the stream ends.  acc holds the current line's characters
    in reverse, n its byte count so far.  Every newline emits its line (also
    an empty one); the text after the last newline is emitted at end of
    input unless empty; a line reaching maxScanTokenSize bytes produces no
    token and ends the stream with tooLong.  (The real scanner reports
    ErrTooLong as soon as its buffer fills mid-line; the tokens produced
    before the overlong line, and the final state, are the same.) -/
def scanTokens : List Char → List Char → Nat → List String × ScanTail
  | [], [], _ => ([], .eof)
  | [], a :: acc, n =>
    if maxScanTokenSize ≤ n then ([], .tooLong)
    else ([finishLine (a :: acc)], .eof)
  | c :: rest, acc, n =>
    if c = '\n' then
      if maxScanTokenSize ≤ n then ([], .tooLong)
      else (finishLine acc :: (scanTokens rest [] 0).1, (scanTokens rest [] 0).2)
    else scanTokens rest (c :: acc) (n + c.utf8Size)

/-- The scanner of processRepoPages over the raw listing output: its token
    stream and terminal condition. -/
def scanLines (s : String) : List String × ScanTail :=
  scanTokens s.data [] 0

/-- The message of fmt.Errorf("scaning reponse pages: %w", ls.Err()) for the
    only scanner error a strings.Reader input can produce,
    bufio.ErrTooLong. -/
def scanErrMsg : String := "scaning reponse pages: bufio.Scanner: token too long"

/-- Loop of processRepoPages (src/unnamed/part_012, second variant, lines
    453-474) over the scanner's token stream.  The JSON decoding of a single
    line (json.Unmarshal into a slice of Repository) is abstracted as the
    pure oracle d.  A token of byte length at most 2 breaks the loop (and,
    the scan being lazy, ls.Err() is then nil whatever lies beyond); a
    decode failure returns the wrapped unmarshal error from inside the loop;
    only when the loop exhausts the tokens is ls.Err() consulted: nil at a
    normal end of input, ErrTooLong — returned wrapped, discarding all pages
    — when the scan stopped at an overlong line. -/
def processRepoPagesGo (d : String → Except String (List Repository)) :
    List String → ScanTail → Except String (List (List Repository))
  | [], .eof => .ok []
  | [], .tooLong => .error scanErrMsg
  | l :: rest, tail =>
    if l.utf8ByteSize ≤ 2 then .ok []
    else
      match d l with
      | .error e => .error ("unmarshaling repositories: " ++ e)
      | .ok page =>
        match processRepoPagesGo d rest tail with
        | .error e => .error e
        | .ok pages => .ok (page :: pages)

/-- processRepoPages: scan the raw listing output into lines and decode them
    page by page. -/
def processRepoPages (d : String → Except String (List Repository)) (s : String) :
    Except String (List (List Repository)) :=
  processRepoPagesGo d (scanLines s).1 (scanLines s).2

/-- The lines the decoder actually consumes: the scanned tokens up to (not
    including) the first one whose byte length is at most 2. -/
def keptLines (s : String) : List String :=
  (scanLines s).1.takeWhile (fun l => decide (2 < l.utf8ByteSize))

theorem forall₂_exists_right {α β : Type} {R : α → β → Prop} :
    ∀ {l₁ : List α} {l₂ : List β}, List.Forall₂ R l₁ l₂ →
      ∀ a ∈ l₁, ∃ b, R a b := by
  intro l₁ l₂ h
  induction h with
  | nil => intro a ha; cases ha
  | cons hab _ ih =>
    intro a ha
    rcases List.mem_cons.mp ha with rfl | ha
    · exact ⟨_, hab⟩
    · exact ih a ha

theorem processRepoPagesGo_ok_iff (d : String → Except String (List Repository)) :
    ∀ (ls : List String) (tail : ScanTail) (pages : List (List Repository)),
      processRepoPagesGo d ls tail = .ok pages ↔
        (List.Forall₂ (fun l page => d l = .ok page)
            (ls.takeWhile (fun l => decide (2 < l.utf8ByteSize))) pages
         ∧ (tail = .eof ∨ ∃ l ∈ ls, l.utf8ByteSize ≤ 2)) := by
  intro ls
  induction ls with
  | nil =>
    intro tail pages
    cases tail with
    | eof => simp [processRepoPagesGo, List.forall₂_nil_left_iff, eq_comm]
    | tooLong => simp [processRepoPagesGo]
  | cons l rest ih =>
    intro tail pages
    by_cases hshort : l.utf8ByteSize ≤ 2
    · have hnot : ¬ (2 < l.utf8ByteSize) := by omega
      constructor
      · intro h
        have hp : pages = [] := by
          have h0 : (Except.ok [] : Except String (List (List Repository))) = .ok pages := by
            rw [← h]
            simp [processRepoPagesGo, hshort]
          injection h0 with h0
          exact h0.symm
        subst hp
        exact ⟨by simp [List.takeWhile_cons, hnot],
          Or.inr ⟨l, List.mem_cons_self l rest, hshort⟩⟩
      · rintro ⟨hf, _⟩
        have hp : pages = [] := by
          simpa [List.takeWhile_cons, hnot, List.forall₂_nil_left_iff] using hf
        subst hp
        simp [processRepoPagesGo, hshort]
    · have hlong : 2 < l.utf8ByteSize := by omega
      have hmem : (∃ x ∈ l :: rest, x.utf8ByteSize ≤ 2) ↔
          (∃ x ∈ rest, x.utf8ByteSize ≤ 2) := by
        constructor
        · rintro ⟨x, hx, hxs⟩
          rcases List.mem_cons.mp hx with rfl | hx
          · omega
          · exact ⟨x, hx, hxs⟩
        · rintro ⟨x, hx, hxs⟩
          exact ⟨x, List.mem_cons_of_mem l hx, hxs⟩
      cases hd : d l with
      | error e =>
        simp [processRepoPagesGo, hshort, hd, List.takeWhile_cons, hlong,
          List.forall₂_cons_left_iff]
      | ok page =>
        cases hrest : processRepoPagesGo d rest tail with
        | error e₁ =>
          simp only [processRepoPagesGo, if_neg hshort, hd, hrest]
          constructor
          · intro h; cases h
          · rintro ⟨hf, hdisj⟩
            rcases List.forall₂_cons_left_iff.mp
              (by simpa [List.takeWhile_cons, hlong] using hf) with
              ⟨p, ps, hp, hps, rfl⟩
            have hdisj' : tail = .eof ∨ ∃ x ∈ rest, x.utf8ByteSize ≤ 2 := by
              rcases hdisj with h' | h'
              · exact Or.inl h'
              · exact Or.inr (hmem.mp h')
            have := (ih tail ps).mpr ⟨hps, hdisj'⟩
            rw [hrest] at this
            cases this
        | ok ps =>
          simp only [processRepoPagesGo, if_neg hshort, hd, hrest]
          constructor
          · intro h
            cases h
            have hih := (ih tail ps).mp hrest
            refine ⟨?_, ?_⟩
            · have hcons : List.Forall₂ (fun l page => d l = Except.ok page)
                  (l :: rest.takeWhile (fun l => decide (2 < l.utf8ByteSize)))
                  (page :: ps) :=
                List.Forall₂.cons hd hih.1
              simpa [List.takeWhile_cons, hlong] using hcons
            · rcases hih.2 with h' | h'
              · exact Or.inl h'
              · exact Or.inr (hmem.mpr h')
          · rintro ⟨hf, hdisj⟩
            rcases List.forall₂_cons_left_iff.mp
              (by simpa [List.takeWhile_cons, hlong] using hf) with
              ⟨p, ps', hp, hps', rfl⟩
            have h1 : (Except.ok page : Except String (List Repository)) = .ok p := by
              rw [← hd, hp]
            cases h1
            have hdisj' : tail = .eof ∨ ∃ x ∈ rest, x.utf8ByteSize ≤ 2 := by
              rcases hdisj with h' | h'
              · exact Or.inl h'
              · exact Or.inr (hmem.mp h')
            have := (ih tail ps').mpr ⟨hps', hdisj'⟩
            rw [hrest] at this
            cases this
            rfl

theorem processRepoPagesGo_error (d : String → Except String (List Repository)) :
    ∀ (ls : List String) (tail : ScanTail) (e : String),
      processRepoPagesGo d ls tail = .error e →
        (∃ l ∈ ls.takeWhile (fun l => decide (2 < l.utf8ByteSize)),
          ∃ e₀, d l = .error e₀ ∧ e = "unmarshaling repositories: " ++ e₀)
        ∨ (tail = .tooLong ∧ e = scanErrMsg) := by
  intro ls
  induction ls with
  | nil =>
    intro tail e h
    cases tail with
    | eof => simp [processRepoPagesGo] at h
    | tooLong =>
      right
      refine ⟨rfl, ?_⟩
      have h0 : (Except.error scanErrMsg :
          Except String (List (List Repository))) = .error e := h
      injection h0 with h0
      exact h0.symm
  | cons l rest ih =>
    intro tail e h
    by_cases hshort : l.utf8ByteSize ≤ 2
    · simp [processRepoPagesGo, hshort] at h
    · have hlong : 2 < l.utf8ByteSize := by omega
      simp only [processRepoPagesGo, if_neg hshort] at h
      cases hd : d l with
      | error e₀ =>
        rw [hd] at h
        injection h with he
        exact Or.inl ⟨l, by simp [List.takeWhile_cons, hlong], e₀, hd, he.symm⟩
      | ok page =>
        rw [hd] at h
        cases hrest : processRepoPagesGo d rest tail with
        | error e₁ =>
          rw [hrest] at h
          injection h with he
          rcases ih tail e₁ hrest with ⟨l', hl', e₀, hd₀, he₀⟩ | ⟨ht, hmsg⟩
          · exact Or.inl ⟨l', by simp [List.takeWhile_cons, hlong, hl'], e₀,
              hd₀, by rw [← he, he₀]⟩
          · exact Or.inr ⟨ht, by rw [← he, hmsg]⟩
        | ok ps => rw [hrest] at h; cases h

theorem processRepoPagesGo_tooLong (d : String → Except String (List Repository)) :
    ∀ (ls : List String),
      (∀ l ∈ ls, 2 < l.utf8ByteSize) →
      (∀ l ∈ ls, ∃ p, d l = .ok p) →
      processRepoPagesGo d ls .tooLong = .error scanErrMsg := by
  intro ls
  induction ls with
  | nil => intro _ _; rfl
  | cons l rest ih =>
    intro hbig hok
    have hlong := hbig l (List.mem_cons_self l rest)
    have hshort : ¬ (l.utf8ByteSize ≤ 2) := by omega
    rcases hok l (List.mem_cons_self l rest) with ⟨p, hp⟩
    have hrest := ih (fun x hx => hbig x (List.mem_cons_of_mem l hx))
      (fun x hx => hok x (List.mem_cons_of_mem l hx))
    simp [processRepoPagesGo, hshort, hp, hrest]

/-- Claim C5 (amended): for every input text and every per-line JSON
    decoder, the decoder consumes the scanned lines in order up to the first
    line of byte length at most 2 (the stream-end marker); it returns
    .ok pages exactly when every kept line decodes — the pages in input
    order, one-to-one — AND the consumption stops benignly (the scan ended
    normally, or a terminator line exists so the loop breaks before the
    scanner can fail); every error is either the wrapped unmarshal error of
    a failing kept line, or the wrapped bufio.ErrTooLong when the scan
    stopped at a line of maxScanTokenSize (65536) or more bytes; a decode
    failure on a kept line always yields an error with no pages; and when
    the scan stops at an overlong line and the loop really gets there (all
    produced tokens are above the terminator threshold and decode), the
    whole call fails with the wrapped scanner error, discarding all pages. -/
theorem c5_page_decoder_all_or_nothing :
    ∀ (d : String → Except String (List Repository)) (s : String),
      (∀ pages, processRepoPages d s = .ok pages ↔
        (List.Forall₂ (fun l page => d l = .ok page) (keptLines s) pages
         ∧ ((scanLines s).2 = .eof ∨ ∃ l ∈ (scanLines s).1, l.utf8ByteSize ≤ 2)))
      ∧ (∀ e, processRepoPages d s = .error e →
          (∃ l ∈ keptLines s, ∃ e₀, d l = .error e₀ ∧
            e = "unmarshaling repositories: " ++ e₀)
          ∨ ((scanLines s).2 = .tooLong ∧ e = scanErrMsg))
      ∧ ((∃ l ∈ keptLines s, ∃ e₀, d l = .error e₀) →
          ∃ e, processRepoPages d s = .error e)
      ∧ ((scanLines s).2 = .tooLong →
          (∀ l ∈ (scanLines s).1, 2 < l.utf8ByteSize) →
          (∀ l ∈ (scanLines s).1, ∃ p, d l = .ok p) →
          processRepoPages d s = .error scanErrMsg) := by
  intro d s
  refine ⟨fun pages =>
      processRepoPagesGo_ok_iff d (scanLines s).1 (scanLines s).2 pages,
    fun e => processRepoPagesGo_error d (scanLines s).1 (scanLines s).2 e,
    ?_, ?_⟩
  · rintro ⟨l, hl, e₀, he₀⟩
    cases hres : processRepoPages d s with
    | error e => exact ⟨e, rfl⟩
    | ok pages =>
      have hall : List.Forall₂ (fun l page => d l = .ok page) (keptLines s) pages :=
        ((processRepoPagesGo_ok_iff d (scanLines s).1 (scanLines s).2 pages).mp
          hres).1
      rcases forall₂_exists_right hall l hl with ⟨page, hpage⟩
      rw [hpage] at he₀
      cases he₀
  · intro ht hbig hok
    show processRepoPagesGo d (scanLines s).1 (scanLines s).2 = .error scanErrMsg
    rw [ht]
    exact processRepoPagesGo_tooLong d (scanLines s).1 hbig hok

theorem scanTokens_replicate_a :
    ∀ (k : Nat) (acc : List Char) (n : Nat),
      scanTokens (List.replicate k 'a') acc n =
        scanTokens [] (List.replicate k 'a' ++ acc) (n + k) := by
  intro k
  induction k with
  | zero => intro acc n; simp
  | succ k ih =>
    intro acc n
    have hstep : scanTokens (List.replicate (k + 1) 'a') acc n =
        scanTokens (List.replicate k 'a') ('a' :: acc) (n + 1) := by
      rw [List.replicate_succ]
      simp only [scanTokens]
      rw [if_neg (by decide)]
      have h1 : ('a' : Char).utf8Size = 1 := by decide
      rw [h1]
    rw [hstep, ih ('a' :: acc) (n + 1), List.replicate_succ',
      List.append_assoc, List.singleton_append]
    have harith : n + 1 + k = n + (k + 1) := by omega
    rw [harith]

/-- A single line of exactly 65536 bytes (65536 ASCII characters): valid
    content for a JSON page, but at bufio's token limit. -/
def overlongLine : List Char := List.replicate 65536 'a'

def overlongInput : String := String.mk overlongLine

theorem scanLines_overlong : scanLines overlongInput = ([], .tooLong) := by
  show scanTokens (String.mk overlongLine).data [] 0 = ([], .tooLong)
  show scanTokens (List.replicate 65536 'a') [] 0 = ([], .tooLong)
  rw [scanTokens_replicate_a 65536 [] 0, List.append_nil]
  rw [show (65536 : Nat) = 65535 + 1 from rfl, List.replicate_succ]
  simp only [scanTokens]
  rw [if_pos (by decide)]

/-- A decoder oracle accepting every line. -/
def decodeAllOK : String → Except String (List Repository) := fun _ => .ok []

/-- Claim C5, counterexample to the claim as stated: the input consists of a
    single 65536-byte line, which this decoder parses successfully (no line
    fails to parse, and no line is at or below the terminator threshold),
    yet processRepoPages returns the wrapped scanner error with no pages:
    bufio's 64KiB token limit stops the scan, so "otherwise it returns the
    pages in input order" is false of the program for this input. -/
theorem c5_counterexample_token_too_long :
    scanLines overlongInput = ([], .tooLong)
    ∧ processRepoPages decodeAllOK overlongInput = .error scanErrMsg
    ∧ decodeAllOK overlongInput = .ok [] := by
  refine ⟨scanLines_overlong, ?_, rfl⟩
  show processRepoPagesGo decodeAllOK (scanLines overlongInput).1
    (scanLines overlongInput).2 = .error scanErrMsg
  rw [scanLines_overlong]
  rfl

/-- A decoder oracle failing exactly on the line "bad". -/
def decodeFailBad : String → Except String (List Repository) :=
  fun l => if l == "bad" then .error "oops" else .ok []

theorem c5_witness :
    (∃ e, processRepoPages decodeFailBad "okay\nbad" = .error e)
    ∧ processRepoPages decodeFailBad "okay\nmore" = .ok [[], []]
    ∧ processRepoPages decodeAllOK overlongInput = .error scanErrMsg :=
  ⟨(c5_page_decoder_all_or_nothing decodeFailBad "okay\nbad").2.2.1
     ⟨"bad", by decide, "oops", rfl⟩,
   ((c5_page_decoder_all_or_nothing decodeFailBad "okay\nmore").1 [[], []]).mpr
     ⟨by
        have h : keptLines "okay\nmore" = ["okay", "more"] := by decide
        rw [h]
        exact List.Forall₂.cons rfl (List.Forall₂.cons rfl List.Forall₂.nil),
      Or.inl (by decide)⟩,
   (c5_page_decoder_all_or_nothing decodeAllOK overlongInput).2.2.2
     (by rw [scanLines_overlong])
     (by rw [scanLines_overlong]; intro l hl; cases hl)
     (by rw [scanLines_overlong]; intro l hl; cases hl)⟩

/-! ## Producer counters (RunForOrganization, src/unnamed/part_012 lines 534-599)

The three counters mFound/mInspected/mProcessed live behind one mutex and
are written only by the single producer goroutine (lines 575-599); mFound is
fully computed before the producer starts (lines 544-546).  The producer
walks the decoded pages page by page and record by record, so its counter
history is exactly the fold below over a prefix of the flattened record
list. -/

/-- One producer iteration (lines 579-586): Inspected is incremented for the
    examined record, Processed only when the filter accepts it.  State is
    (Inspected, Processed). -/
def producerStep (f : Repository → Bool) (st : Nat × Nat) (r : Repository) : Nat × Nat :=
  (st.1 + 1, if f r then st.2 + 1 else st.2)

/-- Counter state after the producer has examined the given records. -/
def producerState (f : Repository → Bool) (rs : List Repository) : Nat × Nat :=
  rs.foldl (producerStep f) (0, 0)

/-- mFound: sum of the page lengths, computed before any record is examined
    (lines 544-546). -/
def foundCount (pages : List (List Repository)) : Nat :=
  (pages.map List.length).sum

theorem producerState_foldl_eq (f : Repository → Bool) :
    ∀ (rs : List Repository) (st : Nat × Nat),
      rs.foldl (producerStep f) st = (st.1 + rs.length, st.2 + rs.countP f) := by
  intro rs
  induction rs with
  | nil => intro st; simp
  | cons r rs ih =>
    intro st
    rw [List.foldl_cons, ih]
    unfold producerStep
    rcases hfr : f r with _ | _ <;>
      simp [List.countP_cons, hfr] <;> omega

theorem producerState_eq (f : Repository → Bool) (rs : List Repository) :
    producerState f rs = (rs.length, rs.countP f) := by
  unfold producerState
  rw [producerState_foldl_eq]
  simp

/-- Claim C4: at every point of the producer loop (i.e. after any prefix of
    k examined records) Found is at least Inspected, which is at least
    Processed; Inspected equals exactly the number of records examined so
    far, in page order; and a single step increments Inspected by one and
    Processed by one exactly when the filter accepts the examined record. -/
theorem c4_found_ge_inspected_ge_processed :
    ∀ (pages : List (List Repository)) (f : Repository → Bool) (k : Nat),
      k ≤ (pages.flatten).length →
      (producerState f ((pages.flatten).take k)).1 = k
      ∧ (producerState f ((pages.flatten).take k)).2
          ≤ (producerState f ((pages.flatten).take k)).1
      ∧ (producerState f ((pages.flatten).take k)).1 ≤ foundCount pages
      ∧ ∀ r, (pages.flatten)[k]? = some r →
          producerState f ((pages.flatten).take (k + 1)) =
            ((producerState f ((pages.flatten).take k)).1 + 1,
             (producerState f ((pages.flatten).take k)).2 +
               (if f r then 1 else 0)) := by
  intro pages f k hk
  have hfound : foundCount pages = (pages.flatten).length := by
    unfold foundCount
    exact (List.length_flatten pages).symm
  have hfst : (producerState f ((pages.flatten).take k)).1 = k := by
    rw [producerState_eq]
    simp only [List.length_take]
    omega
  refine ⟨hfst, ?_, ?_, ?_⟩
  · rw [producerState_eq]
    exact List.countP_le_length _
  · rw [hfst, hfound]
    exact hk
  · intro r hr
    have hsucc : (pages.flatten).take (k + 1) = (pages.flatten).take k ++ [r] := by
      rw [List.take_succ, hr]
      rfl
    rw [hsucc]
    unfold producerState
    rw [List.foldl_append]
    show producerStep f _ r = _
    unfold producerStep
    rcases hfr : f r with _ | _ <;> simp [hfr]

/-! ## Per-repository processing and the worker loop

processRepository (src/unnamed/part_012, second variant, lines 757-780)
calls the user processor and the working-copy acquisition
cloneRepositoryOrGetFromCache.  Both external effects are supplied as pure
oracles:
  - acquire abstracts cloneRepositoryOrGetFromCache's outcome for a
    repository (success, the distinguished errNoDefaultBranch, or another
    error),
  - proc gives the processor callback's returned error (if any) keyed by
    the arguments the source passes it: the repository name and the isEmpty
    flag.
The trace records every processor invocation in order, how many times the
clone/cache subsystem was entered, and the outcome processRepository
returns. -/

/-- Outcome of cloneRepositoryOrGetFromCache as seen by processRepository. -/
inductive CloneOutcome where
  | ok
  | noDefaultBranch
  | fail (msg : String)
deriving Repr, DecidableEq

/-- Result of the user processor callback: some msg models a non-nil error. -/
def ProcOracle : Type := String → Bool → Option String

/-- Error returned by processRepository: the distinguished
    errNoDefaultBranch, or an ordinary error message. -/
inductive RunErr where
  | noDefaultBranch
  | err (msg : String)
deriving Repr, DecidableEq

/-- Observable behaviour of one processRepository call. -/
structure ProcessTrace where
  calls : List (String × Bool)
  acquires : Nat
  outcome : Option RunErr
deriving Repr, DecidableEq

/-- Lines 769-779 of the source: acquire a working copy, then run the
    processor on it (isEmpty = false); a processor error is wrapped as
    "processing repository: %w", an acquisition error propagates unwrapped.
    calls₀ carries the processor invocations already made by the
    empty-repository special case. -/
def processRepositoryAfterEmpty (acquire : Repository → CloneOutcome)
    (proc : ProcOracle) (repo : Repository)
    (calls₀ : List (String × Bool)) : ProcessTrace :=
  match acquire repo with
  | .noDefaultBranch => ⟨calls₀, 1, some .noDefaultBranch⟩
  | .fail e => ⟨calls₀, 1, some (.err e)⟩
  | .ok =>
    match proc repo.Name false with
    | some e => ⟨calls₀ ++ [(repo.Name, false)], 1,
        some (.err ("processing repository: " ++ e))⟩
    | none => ⟨calls₀ ++ [(repo.Name, false)], 1, none⟩

/-- processRepository, lines 757-780.  Note the faithful fall-through: when
    repo.Size == 0 the source invokes the processor with isEmpty = true and,
    if that call succeeds, CONTINUES into the clone/cache subsystem (there
    is no early return after the special case). -/
def processRepository (acquire : Repository → CloneOutcome) (proc : ProcOracle)
    (repo : Repository) : ProcessTrace :=
  if repo.Size = 0 then
    match proc repo.Name true with
    | some e => ⟨[(repo.Name, true)], 0,
        some (.err ("processing empty repository: " ++ e))⟩
    | none => processRepositoryAfterEmpty acquire proc repo [(repo.Name, true)]
  else processRepositoryAfterEmpty acquire proc repo []

/-- The worker loop (lines 548-570) run over the accepted queue.  The
    concurrent pool is determinised to queue order: each accepted record is
    consumed by exactly one worker; an errNoDefaultBranch outcome is logged
    as a warning and skipped (nothing is pushed on the error channel, the
    run continues); any other error is wrapped as `processing "%s": %w` and
    pushed on the error channel, after which no further record of the model
    queue is processed. -/
def runQueue (acquire : Repository → CloneOutcome) (proc : ProcOracle) :
    List Repository → List (String × Bool) × Option String
  | [] => ([], none)
  | r :: rs =>
    let t := processRepository acquire proc r
    match t.outcome with
    | some (.err m) => (t.calls, some ("processing \"" ++ r.Name ++ "\": " ++ m))
    | _ => (t.calls ++ (runQueue acquire proc rs).1, (runQueue acquire proc rs).2)

/-- Aggregate Result counters (lines 476-484). -/
structure Result where
  Found : Nat
  Inspected : Nat
  Processed : Nat
deriving Repr, DecidableEq

/-- The post-listing part of RunForOrganization (lines 534-625), run to
    completion without cancellation: mFound is precomputed from the pages,
    the producer examines every record in page order (so mInspected is the
    total record count and mProcessed the accepted count) and the accepted
    records form the work queue; if any worker reported an error the zero
    Result is returned with that error, otherwise the populated Result with
    no error. -/
def runForRepos (pages : List (List Repository)) (filterIn : Repository → Bool)
    (acquire : Repository → CloneOutcome) (proc : ProcOracle) :
    Result × List (String × Bool) × Option String :=
  match (runQueue acquire proc ((pages.flatten).filter filterIn)).2 with
  | some m => (⟨0, 0, 0⟩,
      (runQueue acquire proc ((pages.flatten).filter filterIn)).1, some m)
  | none => (⟨foundCount pages, (pages.flatten).length,
        ((pages.flatten).filter filterIn).length⟩,
      (runQueue acquire proc ((pages.flatten).filter filterIn)).1, none)

/-! ## cloneRepository (src/unnamed/part_012, lines 716-755)

The git commands the routine runs (through exec.RunX, which fails on a
non-zero exit code) are abstracted as an oracle giving each command's error,
if any.  The routine's control flow — the order of the commands, the
wrapping of their errors, and the placement of the empty-default-branch
check after remote registration but before fetch — is translated
literally. -/

/-- Outcomes of the external commands cloneRepository runs, in source order:
    git init; git remote add origin URL; git config core.sparseCheckout true;
    the sparse-checkout file write (fillLines); git fetch origin BRANCH;
    git checkout BRANCH.  none = success. -/
structure GitOracle where
  init : Option String
  remoteAdd : Option String
  sparseConfig : Option String
  writeSparse : Option String
  fetch : Option String
  checkout : Option String
deriving Repr, DecidableEq

/-- Tail of cloneRepository from the default-branch check on (lines
    742-752): an empty default branch name yields the distinguished
    errNoDefaultBranch before any fetch. -/
def cloneRepositoryFetch (g : GitOracle) (repo : Repository) : Option RunErr :=
  if repo.DefaultBranchName = "" then some .noDefaultBranch
  else
    match g.fetch with
    | some e => some (.err ("fetching HEAD: " ++ e))
    | none =>
      match g.checkout with
      | some e => some (.err ("checking out HEAD: " ++ e))
      | none => none

/-- cloneRepository, lines 716-755.  The remote URL chosen by UseHTTPS only
    changes an argument of the remote-add command, which the oracle already
    covers. -/
def cloneRepository (g : GitOracle) (opts : Options) (repo : Repository) :
    Option RunErr :=
  match g.init with
  | some e => some (.err ("cloning repository: " ++ e))
  | none =>
    match g.remoteAdd with
    | some e => some (.err ("adding origin: " ++ e))
    | none =>
      if 0 < opts.CloningSubset.length then
        match g.sparseConfig with
        | some e => some (.err ("setting sparse checkout subset: " ++ e))
        | none =>
          match g.writeSparse with
          | some e => some (.err ("setting cloning subset: " ++ e))
          | none => cloneRepositoryFetch g repo
      else cloneRepositoryFetch g repo

/-! ## Go time layouts used by the cache manager

cloneRepositoryOrGetFromCache formats time.Now() with the two layout strings
"02T15_04_05" (the synthesized per-call cache key) and "_999999" (the
suffix of the ephemeral duplicate directory).  Go's layout parser
(time/format.go, nextStdChunk) recognises a fractional-second verb only as a
run of 9s or 0s directly preceded by a period or a comma; "02" is the
zero-padded day, "15" the hour, "04" the minute, "05" the second, and "_2"
the space-padded day.  Any other character — including a bare 9 and an
underscore not followed by 2 — is literal text.  goFormat implements the
chunks reachable from the characters of the two layouts above ('0' '2' '4'
'5' '1' '9' '_' 'T'); no period or comma occurs in them, so no fractional
verb can arise. -/

/-- The wall-clock fields a Go layout without a fractional verb can
    surface. -/
structure GoTime where
  day : Nat
  hour : Nat
  min : Nat
  sec : Nat
deriving Repr, DecidableEq

/-- Two-digit zero padding, as Go prints "02"/"15"/"04"/"05" chunks. -/
def pad2 (n : Nat) : String :=
  if n < 10 then "0" ++ toString n else toString n

/-- Go time.Format restricted to the layout chunks reachable from the two
    layout strings the source uses (see the section comment). -/
def goFormatAux (t : GoTime) : List Char → String
  | [] => ""
  | '0' :: '2' :: rest => pad2 t.day ++ goFormatAux t rest
  | '0' :: '4' :: rest => pad2 t.min ++ goFormatAux t rest
  | '0' :: '5' :: rest => pad2 t.sec ++ goFormatAux t rest
  | '1' :: '5' :: rest => pad2 t.hour ++ goFormatAux t rest
  | '_' :: '2' :: rest =>
    (if t.day < 10 then " " ++ toString t.day else toString t.day)
      ++ goFormatAux t rest
  | c :: rest => String.singleton c ++ goFormatAux t rest

def goFormat (layout : String) (t : GoTime) : String :=
  goFormatAux t layout.data

/-! ## cloneRepositoryOrGetFromCache (src/unnamed/part_012, lines 665-714)

The filesystem is abstracted as the set of directories under reposDir plus a
count of completed materialization (cloneRepository) sequences.  os.Stat /
os.MkdirAll are reflected by membership in that set; the rm -rf / cp -r pair
that produces the ephemeral duplicate is reflected by removing and re-adding
the duplicate path.  mkdir, rm and cp themselves are assumed to succeed (the
claims under verification only concern the success path of those commands);
cloneRepository's outcome comes from its oracle. -/

/-- path.Join(os.TempDir(), "gh-iterator"), fixed at process start. -/
def reposDir : String := "/tmp/gh-iterator"

/-- Abstract filesystem state of the cache subsystem. -/
structure CacheState where
  dirs : List String
  clones : Nat
deriving Repr, DecidableEq

/-- Result of a working-copy acquisition. -/
inductive AcqResult where
  | ok (dir : String)
  | noDefaultBranch
  | fail (msg : String)
deriving Repr, DecidableEq

/-- cloneRepositoryOrGetFromCache, lines 665-714, translated line by line:
    compute the cache key (empty or absent CloneCacheKey synthesizes a
    per-call key from the current time and marks the directory for direct
    return); reuse the directory if it exists, otherwise create it and run
    the materialization sequence (removing the directory again on error);
    return the directory itself when caching was not requested, otherwise
    remove and recreate the duplicate path cloneDir + "_" +
    time.Now().Format("_999999") by recursively copying the cache entry and
    return the duplicate. -/
def cloneRepositoryOrGetFromCache (g : GitOracle) (opts : Options)
    (repo : Repository) (now : GoTime) (st : CacheState) :
    AcqResult × CacheState :=
  let cacheKey₀ := match opts.CloneCacheKey with
    | some f => f repo
    | none => ""
  let shouldReturnDirectly := cacheKey₀ = ""
  let cacheKey := if cacheKey₀ = "" then goFormat "02T15_04_05" now else cacheKey₀
  let cloneDir := reposDir ++ "/" ++ repo.Name ++ "-" ++ cacheKey
  let afterClone : Except RunErr CacheState :=
    if cloneDir ∈ st.dirs then .ok st
    else
      match cloneRepository g opts repo with
      | some e => .error e
      | none => .ok ⟨cloneDir :: st.dirs, st.clones + 1⟩
  match afterClone with
  | .error .noDefaultBranch => (.noDefaultBranch, st)
  | .error (.err m) => (.fail m, st)
  | .ok st' =>
    if shouldReturnDirectly then (.ok cloneDir, st')
    else
      let repoDir := cloneDir ++ "_" ++ goFormat "_999999" now
      (.ok repoDir, ⟨repoDir :: (st'.dirs.erase repoDir), st'.clones⟩)

/-! ## RunForOrganization front half (src/unnamed/part_012, lines 487-532)

The gh listing call is abstracted as an oracle from the constructed request
to its stdout (or an error); the JSON page decode is the same oracle d as in
processRepoPages.  The model additionally records how many listing calls
were made and how many records reached the filter, so that "no work
performed" on a configuration error is an observable fact. -/

/-- The request RunForOrganization builds before invoking gh: whether
    --paginate was appended, whether a --cache argument was appended, the
    per_page value embedded in the target, the page selector embedded in the
    target (none when the source appends no page parameter), and the target
    string itself, assembled exactly as in lines 501-516. -/
structure GhCall where
  paginate : Bool
  cacheFlag : Bool
  perPage : Int
  page : Option Int
  target : String
deriving Repr, DecidableEq

/-- The Page half of the validation chain (lines 510-516), with the target
    already carrying the per_page parameter. -/
def buildListingPage (base : String) (cacheFlag : Bool) (pp : Int)
    (so : SearchOptions) : Except String GhCall :=
  let target := base ++ "?per_page=" ++ toString pp
  if so.Page = AllPages then .ok ⟨true, cacheFlag, pp, none, target⟩
  else if 0 < so.Page then
    .ok ⟨false, cacheFlag, pp, some so.Page, target ++ "&page=" ++ toString so.Page⟩
  else if so.Page ≠ 0 then .error "invalid negative SearchOptions.Page"
  else .ok ⟨false, cacheFlag, pp, none, target⟩

/-- Validation and request construction, lines 497-516.  The PerPage chain
    runs first: 0 or above maxPerPage falls back to defaultPerPage, positive
    values are used as given, anything else (a negative value) is the
    PerPage configuration error.  The Page chain runs second: AllPages turns
    on --paginate, positive values append an explicit page parameter, zero
    appends nothing, and any other (negative, non-sentinel) value is the
    Page configuration error. -/
def buildListingCall (orgName : String) (so : SearchOptions) : Except String GhCall :=
  let base := "/orgs/" ++ orgName ++ "/repos"
  let cacheFlag := decide (0 < so.Cache)
  if so.PerPage = 0 ∨ maxPerPage < so.PerPage then
    buildListingPage base cacheFlag defaultPerPage so
  else if 0 < so.PerPage then
    buildListingPage base cacheFlag so.PerPage so
  else .error "invalid negative SearchOptions.PerPage"

/-- Observable behaviour of one RunForOrganization call. -/
structure OrgRunOut where
  listingCalls : Nat
  filterEvals : Nat
  result : Result
  calls : List (String × Bool)
  error : Option String
deriving Repr, DecidableEq

/-- RunForOrganization, lines 487-625: validate the options and build the
    request (returning the zero Result and the configuration error without
    any call to gh, the filter or the processor when validation fails),
    invoke the listing once, decode the pages, and run the concurrent
    pipeline of runForRepos over the decoded pages. -/
def runForOrganization (orgName : String) (so : SearchOptions)
    (listing : GhCall → Except String String)
    (d : String → Except String (List Repository))
    (acquire : Repository → CloneOutcome) (proc : ProcOracle) :
    OrgRunOut :=
  match buildListingCall orgName so with
  | .error e => ⟨0, 0, ⟨0, 0, 0⟩, [], some e⟩
  | .ok call =>
    match listing call with
    | .error e => ⟨1, 0, ⟨0, 0, 0⟩, [], some ("fetching repositories: " ++ e)⟩
    | .ok stdout =>
      match processRepoPages d stdout with
      | .error e => ⟨1, 0, ⟨0, 0, 0⟩, [],
          some ("processing repositories pages: " ++ e)⟩
      | .ok pages =>
        match runForRepos pages so.MakeFilterIn acquire proc with
        | (res, calls, e) => ⟨1, (pages.flatten).length, res, calls, e⟩

/-! ## exec.WithEnv (src/exec/exec.go, lines 42-61)

The Execer fields the function reads and writes (dir, printCommand, env).
The logger field is copied verbatim and carries no data relevant to the
claims, so it is omitted.  Go's kv[i] indexing panics when out of range;
the model returns none there (reachable only for a one-element argument
list). -/

structure Execer where
  dir : String
  printCommand : Bool
  env : List String
deriving Repr, DecidableEq

/-- The loop of WithEnv (lines 51-53 of src/exec/exec.go):
    for i := range kvLen % 2 { env = append(env, kv[i]+"="+kv[i+1]) } -/
def withEnvLoop (kv : List String) (n : Nat) : Option (List String) :=
  (List.range n).foldl
    (fun acc i =>
      match acc, kv[i]?, kv[i + 1]? with
      | some env, some a, some b => some (env ++ [a ++ "=" ++ b])
      | _, _, _ => none)
    (some [])

/-- exec.WithEnv, lines 42-61: an empty argument list returns the receiver
    unchanged; an odd-length list is truncated by one; then the loop above
    runs kvLen % 2 times (kvLen being the ORIGINAL length) and the result
    replaces the env field of a fresh Execer. -/
def WithEnv (e : Execer) (kv : List String) : Option Execer :=
  if kv.length = 0 then some e
  else
    let kv₁ := if kv.length % 2 ≠ 0 then kv.take (kv.length - 1) else kv
    match withEnvLoop kv₁ (kv.length % 2) with
    | some env => some ⟨e.dir, e.printCommand, env⟩
    | none => none

/-- Claim C10: for every call to exec.WithEnv with an even, non-empty
    key-value list, the returned Execer carries an empty environment
    overlay — the loop runs kvLen % 2 = 0 times, so none of the requested
    variables is recorded. -/
theorem c10_withEnv_even_input_records_nothing :
    ∀ (e : Execer) (kv : List String),
      kv ≠ [] → kv.length % 2 = 0 →
      WithEnv e kv = some ⟨e.dir, e.printCommand, []⟩ := by
  intro e kv h0 h2
  have hlen : ¬ (kv.length = 0) := by
    simpa [List.length_eq_zero] using h0
  simp [WithEnv, withEnvLoop, hlen, h2]

theorem c10_witness :
    WithEnv ⟨"/work", false, ["OLD=1"]⟩ ["KEY1", "value1", "KEY2", "value2"] =
      some ⟨"/work", false, []⟩ :=
  c10_withEnv_even_input_records_nothing ⟨"/work", false, ["OLD=1"]⟩
    ["KEY1", "value1", "KEY2", "value2"] (by decide) (by decide)

/-! ## Concrete inputs used by the claim instances -/

/-- A repository record with Size = 0 (GitHub reports size in kilobytes,
    rounded down, so a near-empty but clonable repository can carry size 0)
    and a non-empty default branch. -/
def repoSizeZero : Repository :=
  ⟨"org/empty", "https://example.com/u.git", "git@example.com:u.git",
   "main", false, "Go", "public", false, 0⟩

/-- An ordinary non-empty repository. -/
def repoPlain : Repository :=
  ⟨"org/r", "https://example.com/r.git", "git@example.com:r.git",
   "main", false, "Go", "public", false, 1⟩

/-- A repository whose default branch name is empty. -/
def repoNoBranch : Repository :=
  ⟨"org/nb", "https://example.com/nb.git", "git@example.com:nb.git",
   "", false, "Go", "public", false, 5⟩

/-- A git oracle on which every external command succeeds. -/
def gitAllOK : GitOracle := ⟨none, none, none, none, none, none⟩

/-- A listing oracle returning one decodable line. -/
def listingW : GhCall → Except String String := fun _ => .ok "page1json"

/-- A decoder oracle mapping the single listing line to one page holding the
    size-zero repository. -/
def decodeW : String → Except String (List Repository) := fun _ => .ok [repoSizeZero]

/-- An acquisition oracle on which materialization always succeeds. -/
def acquireOK : Repository → CloneOutcome := fun _ => .ok

/-- A processor oracle that never returns an error. -/
def procOK : ProcOracle := fun _ _ => none

/-- Claim C1 (evaluation at the failing input): one decoded page holding one
    record of size zero, a filter accepting everything (N = M = 1), every
    external command and processor call succeeding.  The organization run
    completes without error or cancellation with Found = Inspected =
    Processed = 1, yet the processor is invoked twice — once by the
    empty-repository special case and once more after the clone the source
    falls through into — contradicting "invokes the processor exactly M
    times".  The counter part of the claim does hold on this run. -/
theorem c1_run_completes_but_processor_invoked_twice :
    runForOrganization "org" {} listingW decodeW acquireOK procOK =
      ⟨1, 1, ⟨1, 1, 1⟩, [("org/empty", true), ("org/empty", false)], none⟩
    ∧ (runForOrganization "org" {} listingW decodeW acquireOK procOK).calls.length ≠
        (runForOrganization "org" {} listingW decodeW acquireOK procOK).result.Processed := by
  constructor
  · rfl
  · decide

/-- Claim C2 (evaluation at the failing input): for a record with Size = 0
    the source invokes the processor once with the empty indicator set, but
    then still enters the clone/cache subsystem (acquires = 1, not 0) and,
    when materialization succeeds, invokes the processor a second time with
    the empty indicator cleared — the trace is not the single empty-marked
    invocation the claim requires. -/
theorem c2_size_zero_record_still_enters_clone_subsystem :
    processRepository acquireOK procOK repoSizeZero =
      ⟨[("org/empty", true), ("org/empty", false)], 1, none⟩
    ∧ (processRepository acquireOK procOK repoSizeZero).acquires ≠ 0
    ∧ (processRepository acquireOK procOK repoSizeZero).calls ≠
        [("org/empty", true)] := by
  refine ⟨rfl, by decide, by decide⟩

/-- Options requesting caching under the constant key "k". -/
def cacheOpts : Options := { CloneCacheKey := some (fun _ => "k") }

/-- Claim C3 (evaluation at the failing input): two sequential acquisitions
    with the same non-empty cache key "k", at two different wall-clock
    times, with the first duplicate released (erased) in between.  The
    materialization sequence runs exactly once (clones stays 1) and neither
    acquisition returns the cache entry's own directory — but both return
    the IDENTICAL path ".../org/r-k__999999", because the Go layout string
    "_999999" contains no fractional-second verb (that requires a preceding
    period or comma) and is formatted as literal text, so the paths are not
    distinct as the claim requires. -/
theorem c3_two_acquisitions_yield_identical_duplicate_path :
    cloneRepositoryOrGetFromCache gitAllOK cacheOpts repoPlain
        ⟨7, 10, 20, 30⟩ ⟨[], 0⟩ =
      (.ok "/tmp/gh-iterator/org/r-k__999999",
       ⟨["/tmp/gh-iterator/org/r-k__999999", "/tmp/gh-iterator/org/r-k"], 1⟩)
    ∧ cloneRepositoryOrGetFromCache gitAllOK cacheOpts repoPlain
        ⟨8, 11, 21, 31⟩
        ⟨["/tmp/gh-iterator/org/r-k__999999",
          "/tmp/gh-iterator/org/r-k"].erase "/tmp/gh-iterator/org/r-k__999999", 1⟩ =
      (.ok "/tmp/gh-iterator/org/r-k__999999",
       ⟨["/tmp/gh-iterator/org/r-k__999999", "/tmp/gh-iterator/org/r-k"], 1⟩)
    ∧ goFormat "_999999" ⟨7, 10, 20, 30⟩ = "_999999"
    ∧ goFormat "_999999" ⟨8, 11, 21, 31⟩ = "_999999"
    ∧ ("/tmp/gh-iterator/org/r-k__999999" : String) ≠ "/tmp/gh-iterator/org/r-k" := by
  refine ⟨rfl, rfl, rfl, rfl, by decide⟩

/-- Pages and filter used to instantiate the producer invariant. -/
def pagesW : List (List Repository) :=
  [[repoPlain, ⟨"org/py", "", "", "main", false, "Python", "public", false, 1⟩],
   [⟨"org/go2", "", "", "main", false, "Go", "public", false, 1⟩]]

def repoPyW : Repository :=
  ⟨"org/py", "", "", "main", false, "Python", "public", false, 1⟩

def langGoFilter : Repository → Bool := fun r => r.Language == "Go"

theorem c4_witness :
    (producerState langGoFilter ((pagesW.flatten).take 1)).1 = 1
    ∧ producerState langGoFilter ((pagesW.flatten).take (1 + 1)) =
        ((producerState langGoFilter ((pagesW.flatten).take 1)).1 + 1,
         (producerState langGoFilter ((pagesW.flatten).take 1)).2 +
           (if langGoFilter repoPyW then 1 else 0)) :=
  ⟨(c4_found_ge_inspected_ge_processed pagesW langGoFilter 1 (by decide)).1,
   (c4_found_ge_inspected_ge_processed pagesW langGoFilter 1 (by decide)).2.2.2
     repoPyW (by decide)⟩

/-! ## Claim C6: a single processor error aborts the run with a named error -/

theorem runQueue_append_skips (acquire : Repository → CloneOutcome)
    (proc : ProcOracle) :
    ∀ (q₁ rs : List Repository),
      (∀ r ∈ q₁, (processRepository acquire proc r).outcome = none ∨
          (processRepository acquire proc r).outcome = some RunErr.noDefaultBranch) →
      (runQueue acquire proc (q₁ ++ rs)).2 = (runQueue acquire proc rs).2 := by
  intro q₁
  induction q₁ with
  | nil =>
    intro rs _
    rfl
  | cons r q ih =>
    intro rs h
    have hr := h r (List.mem_cons_self r q)
    have hq : ∀ x ∈ q, (processRepository acquire proc x).outcome = none ∨
        (processRepository acquire proc x).outcome = some RunErr.noDefaultBranch :=
      fun x hx => h x (List.mem_cons_of_mem r hx)
    rcases hr with h1 | h1 <;>
      simp [runQueue, h1, List.cons_append, ih rs hq]

/-- Claim C6: if, among the repositories accepted by the filter, the
    processor returns a non-nil error for exactly one repository (the queue
    splits as q₁ ++ rbad :: q₂ with every record of q₁ processing cleanly or
    being skipped, and rbad's processor call failing after a successful
    acquisition), then the organization pipeline returns an error message
    that embeds that repository's name — the worker wrapping
    `processing "%s": %w` around processRepository's
    `processing repository: %w` — together with the zero Result: no
    populated Result is returned alongside the error. -/
theorem c6_single_processor_error_returns_named_error :
    ∀ (pages : List (List Repository)) (filterIn : Repository → Bool)
      (acquire : Repository → CloneOutcome) (proc : ProcOracle)
      (q₁ q₂ : List Repository) (rbad : Repository) (e : String),
      (pages.flatten).filter filterIn = q₁ ++ rbad :: q₂ →
      (∀ r ∈ q₁, (processRepository acquire proc r).outcome = none ∨
          (processRepository acquire proc r).outcome = some RunErr.noDefaultBranch) →
      rbad.Size ≠ 0 →
      acquire rbad = .ok →
      proc rbad.Name false = some e →
      ∃ tr, runForRepos pages filterIn acquire proc =
        (⟨0, 0, 0⟩, tr,
         some ("processing \"" ++ rbad.Name ++ "\": " ++
           ("processing repository: " ++ e))) := by
  intro pages filterIn acquire proc q₁ q₂ rbad e h1 h2 h3 h4 h5
  have houtcome : (processRepository acquire proc rbad).outcome =
      some (RunErr.err ("processing repository: " ++ e)) := by
    simp [processRepository, processRepositoryAfterEmpty, h3, h4, h5]
  have hhead : (runQueue acquire proc (rbad :: q₂)).2 =
      some ("processing \"" ++ rbad.Name ++ "\": " ++
        ("processing repository: " ++ e)) := by
    simp [runQueue, houtcome]
  have hsnd : (runQueue acquire proc ((pages.flatten).filter filterIn)).2 =
      some ("processing \"" ++ rbad.Name ++ "\": " ++
        ("processing repository: " ++ e)) := by
    rw [h1]
    rw [runQueue_append_skips acquire proc q₁ (rbad :: q₂) h2]
    exact hhead
  refine ⟨(runQueue acquire proc ((pages.flatten).filter filterIn)).1, ?_⟩
  simp only [runForRepos]
  rw [hsnd]

/-- A repository on which the witness processor fails. -/
def repoBad : Repository :=
  ⟨"org/bad", "https://example.com/b.git", "git@example.com:b.git",
   "main", false, "Go", "public", false, 2⟩

/-- A processor oracle failing exactly on repoBad. -/
def procBad : ProcOracle :=
  fun name _ => if name == "org/bad" then some "boom" else none

theorem c6_witness :
    ∃ tr, runForRepos [[repoPlain, repoBad]] (fun _ => true) acquireOK procBad =
      (⟨0, 0, 0⟩, tr,
       some ("processing \"" ++ repoBad.Name ++ "\": " ++
         ("processing repository: " ++ "boom"))) :=
  c6_single_processor_error_returns_named_error [[repoPlain, repoBad]]
    (fun _ => true) acquireOK procBad [repoPlain] [] repoBad "boom"
    (by decide) (by decide) (by decide) rfl rfl

/-! ## Claim C7: SearchOptions validation in RunForOrganization -/

theorem buildListingPage_negative_page (base : String) (cf : Bool) (pp : Int)
    (so : SearchOptions) (h : so.Page < 0) (hne : so.Page ≠ AllPages) :
    buildListingPage base cf pp so = .error "invalid negative SearchOptions.Page" := by
  simp only [buildListingPage]
  rw [if_neg hne, if_neg (by omega), if_pos (by omega)]

theorem buildListingPage_zero_page (base : String) (cf : Bool) (pp : Int)
    (so : SearchOptions) (h : so.Page = 0) :
    buildListingPage base cf pp so =
      .ok ⟨false, cf, pp, none, base ++ "?per_page=" ++ toString pp⟩ := by
  simp only [buildListingPage, AllPages]
  rw [if_neg (by omega), if_neg (by omega), if_neg (by omega)]

theorem buildListingPage_allPages (base : String) (cf : Bool) (pp : Int)
    (so : SearchOptions) (h : so.Page = AllPages) :
    buildListingPage base cf pp so =
      .ok ⟨true, cf, pp, none, base ++ "?per_page=" ++ toString pp⟩ := by
  simp only [buildListingPage]
  rw [if_pos h]

theorem buildListingPage_positive_page (base : String) (cf : Bool) (pp : Int)
    (so : SearchOptions) (h : 0 < so.Page) :
    buildListingPage base cf pp so =
      .ok ⟨false, cf, pp, some so.Page,
        base ++ "?per_page=" ++ toString pp ++ "&page=" ++ toString so.Page⟩ := by
  simp only [buildListingPage]
  rw [if_neg (by simp only [AllPages]; omega), if_pos h]

/-- Claim C7: a negative PerPage, or a negative Page other than the AllPages
    sentinel, makes RunForOrganization return the zero Result with a
    configuration error immediately — zero listing calls, zero filter
    evaluations, no processor invocation; a PerPage of zero or above the
    maximum of 1000 falls back to the default of 100; and a Page of zero
    appends no page parameter (and no --paginate), i.e. the listing is made
    against the server's default page. -/
theorem c7_searchoptions_validation :
    ∀ (orgName : String) (so : SearchOptions)
      (listing : GhCall → Except String String)
      (d : String → Except String (List Repository))
      (acquire : Repository → CloneOutcome) (proc : ProcOracle),
      ((so.PerPage < 0 ∨ (so.Page < 0 ∧ so.Page ≠ AllPages)) →
        ∃ e, runForOrganization orgName so listing d acquire proc =
          ⟨0, 0, ⟨0, 0, 0⟩, [], some e⟩)
      ∧ ((so.PerPage = 0 ∨ maxPerPage < so.PerPage) →
          (so.Page = AllPages ∨ 0 ≤ so.Page) →
          ∃ c, buildListingCall orgName so = .ok c ∧ c.perPage = defaultPerPage)
      ∧ (so.Page = 0 → 0 ≤ so.PerPage →
          ∃ c, buildListingCall orgName so = .ok c ∧ c.page = none ∧
            c.paginate = false) := by
  intro orgName so listing d acquire proc
  refine ⟨?_, ?_, ?_⟩
  · intro h
    obtain ⟨e, he⟩ : ∃ e, buildListingCall orgName so = .error e := by
      by_cases hpp : so.PerPage < 0
      · refine ⟨"invalid negative SearchOptions.PerPage", ?_⟩
        simp only [buildListingCall]
        rw [if_neg (by simp only [maxPerPage]; omega), if_neg (by omega)]
      · rcases h with hpp' | ⟨hpg, hne⟩
        · exact absurd hpp' hpp
        · refine ⟨"invalid negative SearchOptions.Page", ?_⟩
          simp only [buildListingCall]
          by_cases hdef : so.PerPage = 0 ∨ maxPerPage < so.PerPage
          · rw [if_pos hdef]
            exact buildListingPage_negative_page _ _ _ _ hpg hne
          · rw [if_neg hdef,
              if_pos (by simp only [maxPerPage] at hdef; omega)]
            exact buildListingPage_negative_page _ _ _ _ hpg hne
    exact ⟨e, by simp [runForOrganization, he]⟩
  · intro hdef hpage
    simp only [buildListingCall]
    rw [if_pos hdef]
    rcases hpage with hap | hge
    · exact ⟨_, buildListingPage_allPages _ _ _ _ hap, rfl⟩
    · by_cases h0 : so.Page = 0
      · exact ⟨_, buildListingPage_zero_page _ _ _ _ h0, rfl⟩
      · exact ⟨_, buildListingPage_positive_page _ _ _ _ (by omega), rfl⟩
  · intro h0 hpp
    simp only [buildListingCall]
    by_cases hdef : so.PerPage = 0 ∨ maxPerPage < so.PerPage
    · rw [if_pos hdef]
      exact ⟨_, buildListingPage_zero_page _ _ _ _ h0, rfl, rfl⟩
    · rw [if_neg hdef, if_pos (by simp only [maxPerPage] at hdef; omega)]
      exact ⟨_, buildListingPage_zero_page _ _ _ _ h0, rfl, rfl⟩

theorem c7_witness :
    (∃ e, runForOrganization "org" { PerPage := -5 } listingW decodeW
        acquireOK procOK = ⟨0, 0, ⟨0, 0, 0⟩, [], some e⟩)
    ∧ (∃ e, runForOrganization "org" { Page := -3 } listingW decodeW
        acquireOK procOK = ⟨0, 0, ⟨0, 0, 0⟩, [], some e⟩)
    ∧ (∃ c, buildListingCall "org" { PerPage := 2000, Page := AllPages } = .ok c ∧
        c.perPage = defaultPerPage)
    ∧ (∃ c, buildListingCall "org" ({} : SearchOptions) = .ok c ∧
        c.page = none ∧ c.paginate = false) :=
  ⟨(c7_searchoptions_validation "org" { PerPage := -5 } listingW decodeW
      acquireOK procOK).1 (Or.inl (by decide)),
   (c7_searchoptions_validation "org" { Page := -3 } listingW decodeW
      acquireOK procOK).1 (Or.inr ⟨by decide, by decide⟩),
   (c7_searchoptions_validation "org" { PerPage := 2000, Page := AllPages }
      listingW decodeW acquireOK procOK).2.1 (Or.inr (by decide))
      (Or.inl rfl),
   (c7_searchoptions_validation "org" ({} : SearchOptions) listingW decodeW
      acquireOK procOK).2.2 rfl (by decide)⟩

/-! ## Claim C9: the no-default-branch condition is a skip, not a failure -/

/-- Claim C9: for a repository whose default branch name is empty (and whose
    size is non-zero, so the clone path is the one taken on purpose), the
    per-repository routine yields the distinguished errNoDefaultBranch
    condition — cloneRepository reaches the check right after remote
    registration, before any fetch — and the worker-pool scheduler treats it
    as a pure skip: nothing is pushed onto the error channel and the queue
    continues with the remaining repositories exactly as if the repository
    had not been enqueued. -/
theorem c9_no_default_branch_is_skipped :
    ∀ (g : GitOracle) (opts : Options) (repo : Repository)
      (acquire : Repository → CloneOutcome) (proc : ProcOracle)
      (rs : List Repository),
      repo.DefaultBranchName = "" →
      g.init = none → g.remoteAdd = none →
      g.sparseConfig = none → g.writeSparse = none →
      repo.Size ≠ 0 →
      acquire repo = .noDefaultBranch →
      cloneRepository g opts repo = some RunErr.noDefaultBranch
      ∧ (processRepository acquire proc repo).outcome = some RunErr.noDefaultBranch
      ∧ runQueue acquire proc (repo :: rs) = runQueue acquire proc rs := by
  intro g opts repo acquire proc rs hbr hi hrem hsc hws hsz hacq
  have hpr : processRepository acquire proc repo =
      ⟨[], 1, some RunErr.noDefaultBranch⟩ := by
    simp [processRepository, processRepositoryAfterEmpty, hsz, hacq]
  refine ⟨?_, by rw [hpr], ?_⟩
  · simp [cloneRepository, cloneRepositoryFetch, hi, hrem, hsc, hws, hbr]
  · simp [runQueue, hpr]

/-- An acquisition oracle reporting the missing default branch. -/
def acquireNoBranch : Repository → CloneOutcome := fun _ => .noDefaultBranch

theorem c9_witness :
    cloneRepository gitAllOK {} repoNoBranch = some RunErr.noDefaultBranch
    ∧ (processRepository acquireNoBranch procOK repoNoBranch).outcome =
        some RunErr.noDefaultBranch
    ∧ runQueue acquireNoBranch procOK (repoNoBranch :: [repoPlain]) =
        runQueue acquireNoBranch procOK [repoPlain] :=
  c9_no_default_branch_is_skipped gitAllOK {} repoNoBranch acquireNoBranch
    procOK [repoPlain] rfl rfl rfl rfl rfl (by decide) rfl

end GhIterator
